import Mathlib

/-!
Shallow embedding of the spectral heat current (SHC) measurement engine of
GPUMD (src/measure/shc.cu): ring-buffer sampling of per-particle velocity
and virial-flux components, the lag-correlation reduction kernels
(gpu_find_k), the subset gather (gpu_copy_data), the time-origin counter,
finalization (postprocess) and command parsing (parse).

Machine doubles are modelled as exact rationals.  A CUDA block reduction is
modelled as the corresponding finite sum over the tracked particles:
addition of rationals is associative and commutative, so the tree order of
the device reduction is immaterial to the value.  A kernel launch of Nc
parallel blocks, each adding its reduced value into one accumulator cell,
is modelled as the pointwise sum of the block contributions that target
each cell.
-/

namespace GPUMD

/-- Direction-to-flat-page table `tensor` from SHC::process (shc.cu line
155): row d lists the three virial pages gathered as (sx, sy, sz) for
transport direction d. -/
def tensor : Fin 3 → Fin 3 → ℕ :=
  ![![0, 3, 4], ![6, 1, 5], ![7, 8, 2]]

/-- Per-step input handed to SHC::process: the atom count N and the two flat
device arrays velocity_per_atom (3 N doubles) and virial_per_atom (9 N
doubles), modelled as total functions on flat indices. -/
structure Input where
  N : ℕ
  velocity : ℕ → ℚ
  virial : ℕ → ℚ

/-- Group data used by the engine for a named subset: cpu_size[group_id],
cpu_size_sum[group_id] and the contents array of the chosen grouping
method. -/
structure GroupSel where
  size : ℕ
  offset : ℕ
  contents : ℕ → ℕ

/-- The SHC engine state: configuration scalars, the six ring buffers
(indexed slot then particle; slot k holds entries [k * group_size,
(k+1) * group_size) of the flat device array), the four lag accumulators
and the time-origin counter.  group_method = none models the C value
group_method == -1 (all particles tracked). -/
@[ext]
structure State where
  compute : Bool
  sample_interval : ℕ
  Nc : ℕ
  direction : Fin 3
  group_method : Option GroupSel
  group_size : ℕ
  vx : ℕ → ℕ → ℚ
  vy : ℕ → ℕ → ℚ
  vz : ℕ → ℕ → ℚ
  sx : ℕ → ℕ → ℚ
  sy : ℕ → ℕ → ℚ
  sz : ℕ → ℕ → ℚ
  ki_negative : ℕ → ℚ
  ko_negative : ℕ → ℚ
  ki_positive : ℕ → ℚ
  ko_positive : ℕ → ℚ
  num_time_origins : ℕ

/-- Page a of velocity_per_atom (0 = vx, 1 = vy, 2 = vz) at particle i:
SHC::process takes vx_tmp = data, vy_tmp = data + N, vz_tmp = data + 2 N.
-/
def vraw (inp : Input) (a : Fin 3) (i : ℕ) : ℚ :=
  inp.velocity (inp.N * (a : ℕ) + i)

/-- Component j of the direction-d flux row of virial_per_atom at particle
i: SHC::process takes sx_tmp = data + N * tensor[direction][0] and so on.
-/
def sraw (inp : Input) (d : Fin 3) (j : Fin 3) (i : ℕ) : ℚ :=
  inp.virial (inp.N * tensor d j + i)

/-- Source particle feeding tracked slot n of the current page: the particle
itself when all particles are tracked, and group contents[offset + n]
(gpu_copy_data, shc.cu line 127) for a named subset. -/
def gatherIdx (s : State) (n : ℕ) : ℕ :=
  match s.group_method with
  | none => n
  | some g => g.contents (g.offset + n)

/-- Number of entries written into the current slot: the cudaMemcpy branch
copies N doubles, the gather kernel writes the n < group_size threads. -/
def copyCount (s : State) (inp : Input) : ℕ :=
  match s.group_method with
  | none => inp.N
  | some _ => s.group_size

/-- Overwrite page c of a ring buffer with cnt freshly gathered values;
entries of other pages and entries at or beyond cnt are untouched. -/
def writePage (buf : ℕ → ℕ → ℚ) (c cnt : ℕ) (f : ℕ → ℚ) : ℕ → ℕ → ℚ :=
  fun k n => if k = c ∧ n < cnt then f n else buf k n

/-- One sampling write of SHC::process: the six gathered component vectors
are stored into slot c ( = correlation_step) of the six ring buffers. -/
def writeSlot (s : State) (inp : Input) (c : ℕ) : State :=
  { s with
    sx := writePage s.sx c (copyCount s inp) fun n => sraw inp s.direction 0 (gatherIdx s n)
    sy := writePage s.sy c (copyCount s inp) fun n => sraw inp s.direction 1 (gatherIdx s n)
    sz := writePage s.sz c (copyCount s inp) fun n => sraw inp s.direction 2 (gatherIdx s n)
    vx := writePage s.vx c (copyCount s inp) fun n => vraw inp 0 (gatherIdx s n)
    vy := writePage s.vy c (copyCount s inp) fun n => vraw inp 1 (gatherIdx s n)
    vz := writePage s.vz c (copyCount s inp) fun n => vraw inp 2 (gatherIdx s n) }

/-- In-plane reduced value of one gpu_find_k block: the sum over the tracked
particles of now_x[n] * buf_x[bid][n] + now_y[n] * buf_y[bid][n]. -/
def kiBlock (gs : ℕ) (nowx nowy : ℕ → ℚ) (bufx bufy : ℕ → ℕ → ℚ) (bid : ℕ) : ℚ :=
  ∑ n ∈ Finset.range gs, (nowx n * bufx bid n + nowy n * bufy bid n)

/-- Out-of-plane reduced value of one gpu_find_k block: the sum over the
tracked particles of now_z[n] * buf_z[bid][n]. -/
def koBlock (gs : ℕ) (nowz : ℕ → ℚ) (bufz : ℕ → ℕ → ℚ) (bid : ℕ) : ℚ :=
  ∑ n ∈ Finset.range gs, nowz n * bufz bid n

/-- Accumulator index written by block bid of gpu_find_k (shc.cu lines
96-104): correlation_step - bid when bid <= correlation_step, else
correlation_step + gridDim.x - bid, where gridDim.x = Nc. -/
def lagOf (Nc c bid : ℕ) : ℕ :=
  if bid ≤ c then c - bid else c + Nc - bid

/-- One gpu_find_k launch over Nc blocks: block bid adds its reduced value
into accumulator cell lagOf Nc c bid, so cell l gains the sum of the block
values over the blocks that map to l. -/
def accumulate (Nc c : ℕ) (acc : ℕ → ℚ) (block : ℕ → ℚ) : ℕ → ℚ :=
  fun l => acc l + ∑ bid ∈ Finset.range Nc, if lagOf Nc c bid = l then block bid else 0

/-- The correlating part of SHC::process once the buffer is saturated: the
counter is incremented and the two gpu_find_k launches add into the
negative accumulators (flux at the current slot against the buffered
velocities) and the positive accumulators (velocity at the current slot
against the buffered fluxes). -/
def reduceStep (s : State) (c : ℕ) : State :=
  { s with
    num_time_origins := s.num_time_origins + 1
    ki_negative := accumulate s.Nc c s.ki_negative
      (kiBlock s.group_size (fun n => s.sx c n) (fun n => s.sy c n) s.vx s.vy)
    ko_negative := accumulate s.Nc c s.ko_negative
      (koBlock s.group_size (fun n => s.sz c n) s.vz)
    ki_positive := accumulate s.Nc c s.ki_positive
      (kiBlock s.group_size (fun n => s.vx c n) (fun n => s.vy c n) s.sx s.sy)
    ko_positive := accumulate s.Nc c s.ko_positive
      (koBlock s.group_size (fun n => s.vz c n) s.sz) }

/-- SHC::process for one MD step: return unchanged when disabled or when
step + 1 is not a multiple of the sampling interval; otherwise write slot
correlation_step = (step / sample_interval) mod Nc, and, once sample_step
has reached Nc - 1, perform the two correlation launches. -/
def process (s : State) (step : ℕ) (inp : Input) : State :=
  if s.compute = false then s
  else if (step + 1) % s.sample_interval ≠ 0 then s
  else if s.Nc - 1 ≤ step / s.sample_interval then
    reduceStep (writeSlot s inp (step / s.sample_interval % s.Nc))
      (step / s.sample_interval % s.Nc)
  else writeSlot s inp (step / s.sample_interval % s.Nc)

/-- SHC::preprocess: when active, zero the counter, resolve group_size and
allocate the four accumulators zero-initialized.  The six ring buffers are
allocated without an initial value in the code, so the model keeps their
previous (arbitrary) contents. -/
def preprocess (s : State) (N : ℕ) : State :=
  if s.compute = false then s
  else
    { s with
      num_time_origins := 0
      group_size := match s.group_method with | none => N | some g => g.size
      ki_negative := fun _ => 0
      ko_negative := fun _ => 0
      ki_positive := fun _ => 0
      ko_positive := fun _ => 0 }

/-- SHC::postprocess: when active, emit one line per lag holding the four
accumulators divided by the counter and then deactivate the engine
(compute = 0, group_method = -1); when inactive, emit nothing and change
nothing. -/
def postprocess (s : State) : List (ℚ × ℚ × ℚ × ℚ) × State :=
  if s.compute = false then ([], s)
  else
    ((List.range s.Nc).map fun nc =>
      (s.ki_negative nc / (s.num_time_origins : ℚ),
       s.ko_negative nc / (s.num_time_origins : ℚ),
       s.ki_positive nc / (s.num_time_origins : ℚ),
       s.ko_positive nc / (s.num_time_origins : ℚ)),
     { s with compute := false, group_method := none })

/-- Drive the engine through MD steps 0, 1, ..., T - 1, feeding input
inputs t at step t (the sequential outer MD loop). -/
def runSteps (s : State) (inputs : ℕ → Input) : ℕ → State
  | 0 => s
  | T + 1 => process (runSteps s inputs T) T (inputs T)

/-- A freshly configured engine as left by SHC::parse: compute set, the
configuration scalars installed, buffers and accumulators at an arbitrary
initial value, counter zero. -/
def initState (si nc : ℕ) (d : Fin 3) (gm : Option GroupSel) : State :=
  { compute := true, sample_interval := si, Nc := nc, direction := d,
    group_method := gm, group_size := 0,
    vx := fun _ _ => 0, vy := fun _ _ => 0, vz := fun _ _ => 0,
    sx := fun _ _ => 0, sy := fun _ _ => 0, sz := fun _ _ => 0,
    ki_negative := fun _ => 0, ko_negative := fun _ => 0,
    ki_positive := fun _ => 0, ko_positive := fun _ => 0,
    num_time_origins := 0 }

/-- A raw configuration token: either a token that the integer recogniser
accepts (with its value) or any other string. -/
inductive Tok where
  | int (n : ℤ)
  | str (s : String)
deriving DecidableEq

/-- Modelled from the spec: is_valid_int (utilities/read_file, not under
src/) recognises a token that parses as an integer and yields its value. -/
def is_valid_int : Tok → Option ℤ
  | .int n => some n
  | .str _ => none

/-- The configuration scalars produced by a successful SHC::parse. -/
structure ShcParams where
  sample_interval : ℤ
  Nc : ℤ
  direction : ℤ
  group : Option (ℤ × ℤ)
deriving DecidableEq

/-- Modelled from the spec: parse_group (parse_utilities, not under src/)
resolves the optional named-subset selector "group <method> <id>",
consuming the two tokens after the keyword and requiring both to be
integers. -/
def parse_group (p1 p2 : Tok) : Option (ℤ × ℤ) :=
  match is_valid_int p1, is_valid_int p2 with
  | some m, some i => some (m, i)
  | _, _ => none

/-- The validation chain of SHC::parse after the argument-count check:
sampling interval an integer in [1, 10], Nc an integer in [100, 1000],
direction one of 0, 1, 2, and the optional trailing tokens headed by the
group keyword. -/
def parseCore (p1 p2 p3 : Tok) (rest : Option (Tok × Tok × Tok)) :
    Except String ShcParams :=
  match is_valid_int p1 with
  | none => .error "Sampling interval for SHC should be an integer."
  | some si =>
    if si < 1 then .error "Sampling interval for SHC should >= 1."
    else if si > 10 then .error "Sampling interval for SHC should <= 10 (trust me)."
    else match is_valid_int p2 with
    | none => .error "Nc for SHC should be an integer."
    | some nc =>
      if nc < 100 then .error "Nc for SHC should >= 100 (trust me)."
      else if nc > 1000 then .error "Nc for SHC should <= 1000 (trust me)."
      else match is_valid_int p3 with
      | none => .error "direction for SHC should be an integer."
      | some d =>
        if d = 0 ∨ d = 1 ∨ d = 2 then
          match rest with
          | none => .ok ⟨si, nc, d, none⟩
          | some (k4, k5, k6) =>
            if k4 = Tok.str "group" then
              match parse_group k5 k6 with
              | some g => .ok ⟨si, nc, d, some g⟩
              | none => .error "group method and id should be integers."
            else .error "Unrecognized argument in compute_shc."
        else .error "Transport direction should be x or y or z."

/-- SHC::parse: the token list includes the command name at position 0, so
the C num_param equals the list length; it must be 4 or 7. -/
def parse (param : List Tok) : Except String ShcParams :=
  match param with
  | [_, p1, p2, p3] => parseCore p1 p2 p3 none
  | [_, p1, p2, p3, k4, k5, k6] => parseCore p1 p2 p3 (some (k4, k5, k6))
  | _ => .error "compute_shc should have 3 or 6 parameters."

/-- Spec-side predicate: the token is an integer lying in [lo, hi]. -/
def intIn (t : Tok) (lo hi : ℤ) : Prop :=
  match is_valid_int t with
  | some n => lo ≤ n ∧ n ≤ hi
  | none => False

/-- Spec-side predicate: the token is one of the three axis codes 0, 1, 2.
-/
def axisTok (t : Tok) : Prop :=
  match is_valid_int t with
  | some n => n = 0 ∨ n = 1 ∨ n = 2
  | none => False

/-- Spec-side predicate for the trailing tokens: absent, or the recognised
group keyword followed by two integer arguments. -/
def restOk : Option (Tok × Tok × Tok) → Prop
  | none => True
  | some (k4, k5, k6) =>
      k4 = Tok.str "group" ∧ (is_valid_int k5).isSome ∧ (is_valid_int k6).isSome

/-- Spec-side acceptance predicate, written from the words of the claim: the
argument count is right (4 or 7 tokens including the command name), the
sampling interval is an integer in [1, 10], Nc an integer in [100, 1000],
the direction one of the three axis codes, and any trailing tokens are the
recognised group keyword with its two integer arguments. -/
def specAccepts : List Tok → Prop
  | [_, p1, p2, p3] => intIn p1 1 10 ∧ intIn p2 100 1000 ∧ axisTok p3
  | [_, p1, p2, p3, k4, k5, k6] =>
      intIn p1 1 10 ∧ intIn p2 100 1000 ∧ axisTok p3 ∧
        restOk (some (k4, k5, k6))
  | _ => False

/-- Position-to-component reading of the flat virial row layout stated by
the spec, [xx, yy, zz, xy, yz, zx, yx, zy, zx]: page p holds the stress
component (row, column); none beyond the nine pages.  The spec text lists
zx both at page 5 and at page 8. -/
def specLayout : ℕ → Option (Fin 3 × Fin 3)
  | 0 => some (0, 0)
  | 1 => some (1, 1)
  | 2 => some (2, 2)
  | 3 => some (0, 1)
  | 4 => some (1, 2)
  | 5 => some (2, 0)
  | 6 => some (1, 0)
  | 7 => some (2, 1)
  | 8 => some (2, 0)
  | _ => none

/-- The flat virial row layout [xx, yy, zz, xy, xz, yz, yx, zx, zy]: the
assignment of stress components to the nine pages under which the table
tensor selects, for every direction d, exactly the row-d components
(sigma_dx, sigma_dy, sigma_dz). -/
def codeLayout : ℕ → Option (Fin 3 × Fin 3)
  | 0 => some (0, 0)
  | 1 => some (1, 1)
  | 2 => some (2, 2)
  | 3 => some (0, 1)
  | 4 => some (0, 2)
  | 5 => some (1, 2)
  | 6 => some (1, 0)
  | 7 => some (2, 0)
  | 8 => some (2, 1)
  | _ => none

/-- An all-zero input over four atoms, used to instantiate theorems at a
concrete point. -/
def exInput : Input := { N := 4, velocity := fun _ => 0, virial := fun _ => 0 }

/-- A warm engine: parsed with interval 1, Nc = 100, direction x, all
particles tracked, then preprocessed for a 4-atom system; no sampling step
has been taken yet. -/
def warmState : State := preprocess (initState 1 100 0 none) 4

/-- A disabled engine, as left after postprocess has deactivated it. -/
def offState : State := { initState 1 100 0 none with compute := false }

/-- The constant input of the end-to-end scenario: two atoms, velocity
(1, 0, 0) and flux (1, 0, 0) for both.  Flat velocity indices 0 and 1 hold
vx; flat virial indices 0 and 1 hold page xx = page tensor[0][0]; each
other page is zero. -/
def c9Input : Input :=
  { N := 2, velocity := fun i => if i < 2 then 1 else 0,
    virial := fun i => if i < 2 then 1 else 0 }

/-- The engine of the end-to-end scenario: interval 1, Nc = 100, transport
direction x, both particles tracked. -/
def c9Start : State := preprocess (initState 1 100 0 none) 2

/-- A one-entry subset map selecting particle 0, for the noninterference
witness. -/
def c6g : GroupSel := { size := 1, offset := 0, contents := fun _ => 0 }

/-- An engine tracking the named subset c6g inside a 10-atom system. -/
def c6Start : State := preprocess (initState 1 100 0 (some c6g)) 10

/-- First input of the noninterference witness: constant arrays. -/
def c6inA : Input := { N := 10, velocity := fun _ => 5, virial := fun _ => 3 }

/-- Second input of the noninterference witness: agrees with c6inA exactly
on the flat indices of particle 0 (the multiples of 10) and differs
everywhere else. -/
def c6inB : Input :=
  { N := 10, velocity := fun i => if i % 10 = 0 then 5 else 999,
    virial := fun i => if i % 10 = 0 then 3 else 111 }

/-- Claim C1: for a reducing sampling step with correlation_step = c and any
block index bid in [0, Nc), the accumulator cell the block adds into is at
physical lag c - bid when bid <= c and at c + Nc - bid otherwise, and this
lag always lies in [0, Nc). -/
theorem C1_lag_mapping (Nc c bid : ℕ) (hc : c < Nc) (hb : bid < Nc) :
    (bid ≤ c → lagOf Nc c bid = c - bid) ∧
    (c < bid → lagOf Nc c bid = c + Nc - bid) ∧
    lagOf Nc c bid < Nc := by
  unfold lagOf
  refine ⟨fun h => by rw [if_pos h], fun h => by rw [if_neg (by omega)], ?_⟩
  split <;> omega

/-- Witness for C1 at Nc = 100, c = 5, bid = 7. -/
theorem C1_lag_mapping_witness :
    (5 : ℕ) < 100 ∧ (7 : ℕ) < 100 ∧ lagOf 100 5 7 = 98 := by
  refine ⟨by decide, by decide, ?_⟩
  have h := C1_lag_mapping 100 5 7 (by decide) (by decide)
  rw [h.2.1 (by decide)]

/-- Claim C5: for a fixed correlation_step c, the map from block index to
physical lag is injective on [0, Nc), so two distinct blocks of the same
gpu_find_k launch add their reduced pair into distinct accumulator cells
and no two blocks of one launch target the same lag index. -/
theorem C5_lag_injective (Nc c b1 b2 : ℕ) (hc : c < Nc) (h1 : b1 < Nc)
    (h2 : b2 < Nc) (hne : b1 ≠ b2) :
    lagOf Nc c b1 ≠ lagOf Nc c b2 := by
  unfold lagOf
  split <;> split <;> omega

/-- Witness for C5 at Nc = 100, c = 42, blocks 3 and 97. -/
theorem C5_lag_injective_witness :
    (42 : ℕ) < 100 ∧ (3 : ℕ) < 100 ∧ (97 : ℕ) < 100 ∧ (3 : ℕ) ≠ 97 ∧
    lagOf 100 42 3 ≠ lagOf 100 42 97 :=
  ⟨by decide, by decide, by decide, by decide,
    C5_lag_injective 100 42 3 97 (by decide) (by decide) (by decide) (by decide)⟩
lemma parseCore_ok_iff (p1 p2 p3 : Tok) (rest : Option (Tok × Tok × Tok)) :
    (∃ c, parseCore p1 p2 p3 rest = Except.ok c) ↔
      (intIn p1 1 10 ∧ intIn p2 100 1000 ∧ axisTok p3 ∧ restOk rest) := by
  cases p1 with
  | str s1 => simp [parseCore, is_valid_int, intIn]
  | int n1 =>
    cases p2 with
    | str s2 =>
      simp only [parseCore, is_valid_int]
      split_ifs <;> simp [intIn, is_valid_int]
    | int n2 =>
      cases p3 with
      | str s3 =>
        simp only [parseCore, is_valid_int]
        split_ifs <;> simp [intIn, axisTok, is_valid_int]
      | int n3 =>
        cases rest with
        | none =>
          simp only [parseCore, is_valid_int]
          split_ifs <;> simp [intIn, axisTok, restOk, is_valid_int] <;> omega
        | some k =>
          obtain ⟨k4, k5, k6⟩ := k
          by_cases hg : k4 = Tok.str "group"
          · subst hg
            cases k5 with
            | str s5 =>
              simp only [parseCore, is_valid_int, parse_group]
              split_ifs <;>
                simp [intIn, axisTok, restOk, is_valid_int] <;> omega
            | int n5 =>
              cases k6 with
              | str s6 =>
                simp only [parseCore, is_valid_int, parse_group]
                split_ifs <;>
                  simp [intIn, axisTok, restOk, is_valid_int] <;> omega
              | int n6 =>
                simp only [parseCore, is_valid_int, parse_group]
                split_ifs <;>
                  simp [intIn, axisTok, restOk, is_valid_int] <;> omega
          · simp only [parseCore, is_valid_int, parse_group]
            split_ifs <;> simp [intIn, axisTok, restOk, is_valid_int, hg]

/-- Claim C4: SHC::parse rejects with a fatal error exactly when the
sampling interval is not an integer in [1, 10], Nc is not an integer in
[100, 1000], the direction is not one of the axis codes 0, 1, 2, an
unrecognised keyword is supplied, or the argument count is wrong; every
configuration with all values in range is accepted.  No buffer is touched
by parse: allocation happens only later, in preprocess. -/
theorem C4_parse_accepts_iff (param : List Tok) :
    (∃ c, parse param = Except.ok c) ↔ specAccepts param := by
  match param with
  | [] => simp [parse, specAccepts]
  | [p0] => simp [parse, specAccepts]
  | [p0, p1] => simp [parse, specAccepts]
  | [p0, p1, p2] => simp [parse, specAccepts]
  | [p0, p1, p2, p3] =>
    rw [show parse [p0, p1, p2, p3] = parseCore p1 p2 p3 none from rfl,
      parseCore_ok_iff]
    simp [specAccepts, restOk]
  | [p0, p1, p2, p3, p4] => simp [parse, specAccepts]
  | [p0, p1, p2, p3, p4, p5] => simp [parse, specAccepts]
  | [p0, p1, p2, p3, k4, k5, k6] =>
    rw [show parse [p0, p1, p2, p3, k4, k5, k6]
        = parseCore p1 p2 p3 (some (k4, k5, k6)) from rfl,
      parseCore_ok_iff]
    simp [specAccepts]
  | p0 :: p1 :: p2 :: p3 :: p4 :: p5 :: p6 :: p7 :: rest =>
    simp [parse, specAccepts]


lemma process_config (s : State) (step : ℕ) (inp : Input) :
    (process s step inp).compute = s.compute ∧
      (process s step inp).sample_interval = s.sample_interval ∧
      (process s step inp).Nc = s.Nc ∧
      (process s step inp).direction = s.direction ∧
      (process s step inp).group_method = s.group_method ∧
      (process s step inp).group_size = s.group_size := by
  unfold process reduceStep writeSlot
  split_ifs <;> exact ⟨rfl, rfl, rfl, rfl, rfl, rfl⟩

lemma runSteps_config (s : State) (inputs : ℕ → Input) (T : ℕ) :
    (runSteps s inputs T).compute = s.compute ∧
      (runSteps s inputs T).sample_interval = s.sample_interval ∧
      (runSteps s inputs T).Nc = s.Nc ∧
      (runSteps s inputs T).direction = s.direction ∧
      (runSteps s inputs T).group_method = s.group_method ∧
      (runSteps s inputs T).group_size = s.group_size := by
  induction T with
  | zero => exact ⟨rfl, rfl, rfl, rfl, rfl, rfl⟩
  | succ T ih =>
    have h := process_config (runSteps s inputs T) T (inputs T)
    exact ⟨h.1.trans ih.1, h.2.1.trans ih.2.1, h.2.2.1.trans ih.2.2.1,
      h.2.2.2.1.trans ih.2.2.2.1, h.2.2.2.2.1.trans ih.2.2.2.2.1,
      h.2.2.2.2.2.trans ih.2.2.2.2.2⟩

lemma preprocess_active (s : State) (N : ℕ) (hc : s.compute = true) :
    preprocess s N =
      { s with
        num_time_origins := 0
        group_size := match s.group_method with | none => N | some g => g.size
        ki_negative := fun _ => 0
        ko_negative := fun _ => 0
        ki_positive := fun _ => 0
        ko_positive := fun _ => 0 } := by
  unfold preprocess
  rw [if_neg (by simp [hc])]

lemma process_counter (s : State) (step : ℕ) (inp : Input) :
    (process s step inp).num_time_origins =
      s.num_time_origins +
        if s.compute = true ∧ (step + 1) % s.sample_interval = 0 ∧
            s.Nc - 1 ≤ step / s.sample_interval then 1 else 0 := by
  unfold process reduceStep writeSlot
  split_ifs with h1 h2 h3 <;> simp_all

lemma process_accs (s : State) (step : ℕ) (inp : Input)
    (h : ¬(s.compute = true ∧ (step + 1) % s.sample_interval = 0 ∧
        s.Nc - 1 ≤ step / s.sample_interval)) :
    (process s step inp).ki_negative = s.ki_negative ∧
      (process s step inp).ko_negative = s.ko_negative ∧
      (process s step inp).ki_positive = s.ki_positive ∧
      (process s step inp).ko_positive = s.ko_positive := by
  unfold process reduceStep writeSlot
  split_ifs with h1 h2 h3
  · exact ⟨rfl, rfl, rfl, rfl⟩
  · exact ⟨rfl, rfl, rfl, rfl⟩
  · exact absurd ⟨by simpa using h1, by simpa using h2, h3⟩ h
  · exact ⟨rfl, rfl, rfl, rfl⟩

lemma succ_div_of_mod_eq (si T : ℕ) (h : (T + 1) % si = 0) :
    (T + 1) / si = T / si + 1 := by
  rw [Nat.succ_div, if_pos (Nat.dvd_of_mod_eq_zero h)]

lemma succ_div_of_mod_ne (si T : ℕ) (h : (T + 1) % si ≠ 0) :
    (T + 1) / si = T / si := by
  rw [Nat.succ_div, if_neg ?_, Nat.add_zero]
  rintro ⟨q, hq⟩
  exact h (by rw [hq]; exact Nat.mul_mod_right si q)

lemma runSteps_counter (s : State) (inputs : ℕ → Input)
    (hc : s.compute = true) (T : ℕ) :
    (runSteps s inputs T).num_time_origins =
      s.num_time_origins +
        (T / s.sample_interval - min (s.Nc - 1) (T / s.sample_interval)) := by
  induction T with
  | zero => simp [runSteps]
  | succ T ih =>
    have hcfg := runSteps_config s inputs T
    have hpc := process_counter (runSteps s inputs T) T (inputs T)
    rw [hcfg.1, hcfg.2.1, hcfg.2.2.1, hc] at hpc
    show (process (runSteps s inputs T) T (inputs T)).num_time_origins = _
    rw [hpc, ih]
    by_cases hm : (T + 1) % s.sample_interval = 0
    · by_cases hr : s.Nc - 1 ≤ T / s.sample_interval
      · rw [if_pos ⟨rfl, hm, hr⟩, succ_div_of_mod_eq _ _ hm]
        omega
      · rw [if_neg (by tauto), succ_div_of_mod_eq _ _ hm]
        omega
    · rw [if_neg (by tauto), succ_div_of_mod_ne _ _ hm]
      omega

lemma runSteps_accs (s : State) (inputs : ℕ → Input) :
    ∀ T, T / s.sample_interval < s.Nc →
      (runSteps s inputs T).ki_negative = s.ki_negative ∧
        (runSteps s inputs T).ko_negative = s.ko_negative ∧
        (runSteps s inputs T).ki_positive = s.ki_positive ∧
        (runSteps s inputs T).ko_positive = s.ko_positive := by
  intro T
  induction T with
  | zero => exact fun _ => ⟨rfl, rfl, rfl, rfl⟩
  | succ T ih =>
    intro h
    have hcfg := runSteps_config s inputs T
    have hno : ¬((runSteps s inputs T).compute = true ∧
        (T + 1) % (runSteps s inputs T).sample_interval = 0 ∧
        (runSteps s inputs T).Nc - 1 ≤ T / (runSteps s inputs T).sample_interval) := by
      rw [hcfg.2.1, hcfg.2.2.1]
      rintro ⟨-, hm, hr⟩
      have hd := succ_div_of_mod_eq s.sample_interval T hm
      omega
    have hstep := process_accs (runSteps s inputs T) T (inputs T) hno
    have ihh := ih (lt_of_le_of_lt (Nat.div_le_div_right (Nat.le_succ T)) h)
    exact ⟨hstep.1.trans ihh.1, hstep.2.1.trans ihh.2.1,
      hstep.2.2.1.trans ihh.2.2.1, hstep.2.2.2.trans ihh.2.2.2⟩

/-- Claim C3: driving a freshly preprocessed active engine through the
sequential MD steps 0, ..., T-1 writes T / sample_interval samples; while
that count is below Nc, the time-origin counter stays zero and the four
accumulators keep their setup value (all zeroes), so no reduction has been
performed before Nc samples exist. -/
theorem C3_no_reduction_before_fill (s0 : State) (N : ℕ) (inputs : ℕ → Input)
    (T : ℕ) (hc : s0.compute = true)
    (hT : T / s0.sample_interval < s0.Nc) :
    (runSteps (preprocess s0 N) inputs T).num_time_origins = 0 ∧
      (runSteps (preprocess s0 N) inputs T).ki_negative = (fun _ => 0) ∧
      (runSteps (preprocess s0 N) inputs T).ko_negative = (fun _ => 0) ∧
      (runSteps (preprocess s0 N) inputs T).ki_positive = (fun _ => 0) ∧
      (runSteps (preprocess s0 N) inputs T).ko_positive = (fun _ => 0) := by
  have hpp := preprocess_active s0 N hc
  have hsi : (preprocess s0 N).sample_interval = s0.sample_interval := by
    rw [hpp]
  have hNc : (preprocess s0 N).Nc = s0.Nc := by rw [hpp]
  have hcm : (preprocess s0 N).compute = true := by rw [hpp]; exact hc
  constructor
  · rw [runSteps_counter (preprocess s0 N) inputs hcm T, hsi, hNc]
    have : (preprocess s0 N).num_time_origins = 0 := by rw [hpp]
    omega
  · have haccs := runSteps_accs (preprocess s0 N) inputs T (by rw [hsi, hNc]; exact hT)
    refine ⟨haccs.1.trans (by rw [hpp]), haccs.2.1.trans (by rw [hpp]),
      haccs.2.2.1.trans (by rw [hpp]), haccs.2.2.2.trans (by rw [hpp])⟩

/-- Witness for C3: interval 1, Nc = 100, five steps taken. -/
theorem C3_no_reduction_before_fill_witness :
    (initState 1 100 0 none).compute = true ∧ (5 : ℕ) / 1 < 100 ∧
      (runSteps (preprocess (initState 1 100 0 none) 4) (fun _ => exInput)
          5).num_time_origins = 0 :=
  ⟨rfl, by decide,
    (C3_no_reduction_before_fill (initState 1 100 0 none) 4 (fun _ => exInput)
      5 rfl (by decide)).1⟩

/-- Claim C2 fails on the code: warmState is an engine that parse activated
and preprocess initialized, on which finalization (postprocess) is
immediately reachable, yet its time-origin counter is zero, so the
element-wise division in postprocess divides by zero there. -/
theorem C2_counterexample_active_zero_counter :
    warmState.compute = true ∧ ¬ 0 < warmState.num_time_origins := by
  exact ⟨rfl, by decide⟩

/-- Claim C2 amended: the counter is strictly positive at finalization
whenever the engine is active, Nc is positive and at least Nc samples
( T / sample_interval of them ) have been taken by the sequential run
before postprocess; being active alone does not guarantee it. -/
theorem C2_amended_counter_pos (s0 : State) (N : ℕ) (inputs : ℕ → Input)
    (T : ℕ) (hc : s0.compute = true) (hNc : 1 ≤ s0.Nc)
    (hT : s0.Nc ≤ T / s0.sample_interval) :
    0 < (runSteps (preprocess s0 N) inputs T).num_time_origins := by
  have hpp := preprocess_active s0 N hc
  have hsi : (preprocess s0 N).sample_interval = s0.sample_interval := by
    rw [hpp]
  have hNcEq : (preprocess s0 N).Nc = s0.Nc := by rw [hpp]
  have hcm : (preprocess s0 N).compute = true := by rw [hpp]; exact hc
  rw [runSteps_counter (preprocess s0 N) inputs hcm T, hsi, hNcEq]
  omega

/-- Witness for C2 amended: interval 1, Nc = 100, 100 steps taken. -/
theorem C2_amended_counter_pos_witness :
    (initState 1 100 0 none).compute = true ∧ (1 : ℕ) ≤ 100 ∧
      (100 : ℕ) ≤ 100 / 1 ∧
      0 < (runSteps (preprocess (initState 1 100 0 none) 4) (fun _ => exInput)
          100).num_time_origins :=
  ⟨rfl, by decide, by decide,
    C2_amended_counter_pos (initState 1 100 0 none) 4 (fun _ => exInput) 100
      rfl (by decide) (by decide)⟩

/-- Claim C10: a process call on a disabled engine, or at a step where
step + 1 is not a multiple of the sampling interval, returns the state
unchanged (ring buffers, accumulators and counter included); at sampling
steps the sample with index k = step / sample_interval is written at ring
slot k mod Nc: every other page of the six buffers is untouched and the
first copyCount entries of page k mod Nc hold the freshly gathered
values. -/
theorem C10_process_frame (s : State) (step : ℕ) (inp : Input) :
    (s.compute = false ∨ (step + 1) % s.sample_interval ≠ 0 →
        process s step inp = s) ∧
      (s.compute = true → (step + 1) % s.sample_interval = 0 →
        (∀ k n, k ≠ step / s.sample_interval % s.Nc →
          (process s step inp).vx k n = s.vx k n ∧
            (process s step inp).vy k n = s.vy k n ∧
            (process s step inp).vz k n = s.vz k n ∧
            (process s step inp).sx k n = s.sx k n ∧
            (process s step inp).sy k n = s.sy k n ∧
            (process s step inp).sz k n = s.sz k n) ∧
        (∀ n, n < copyCount s inp →
          (process s step inp).vx (step / s.sample_interval % s.Nc) n
              = vraw inp 0 (gatherIdx s n) ∧
            (process s step inp).vy (step / s.sample_interval % s.Nc) n
              = vraw inp 1 (gatherIdx s n) ∧
            (process s step inp).vz (step / s.sample_interval % s.Nc) n
              = vraw inp 2 (gatherIdx s n) ∧
            (process s step inp).sx (step / s.sample_interval % s.Nc) n
              = sraw inp s.direction 0 (gatherIdx s n) ∧
            (process s step inp).sy (step / s.sample_interval % s.Nc) n
              = sraw inp s.direction 1 (gatherIdx s n) ∧
            (process s step inp).sz (step / s.sample_interval % s.Nc) n
              = sraw inp s.direction 2 (gatherIdx s n))) := by
  constructor
  · intro h
    unfold process
    rcases h with h | h
    · rw [if_pos h]
    · by_cases hcf : s.compute = false
      · rw [if_pos hcf]
      · rw [if_neg hcf, if_pos h]
  · intro hc hm
    have hb : (process s step inp).vx
          = (writeSlot s inp (step / s.sample_interval % s.Nc)).vx ∧
        (process s step inp).vy
          = (writeSlot s inp (step / s.sample_interval % s.Nc)).vy ∧
        (process s step inp).vz
          = (writeSlot s inp (step / s.sample_interval % s.Nc)).vz ∧
        (process s step inp).sx
          = (writeSlot s inp (step / s.sample_interval % s.Nc)).sx ∧
        (process s step inp).sy
          = (writeSlot s inp (step / s.sample_interval % s.Nc)).sy ∧
        (process s step inp).sz
          = (writeSlot s inp (step / s.sample_interval % s.Nc)).sz := by
      unfold process
      rw [if_neg (by simp [hc]), if_neg (by simp [hm])]
      split_ifs <;> exact ⟨rfl, rfl, rfl, rfl, rfl, rfl⟩
    constructor
    · intro k n hk
      rw [hb.1, hb.2.1, hb.2.2.1, hb.2.2.2.1, hb.2.2.2.2.1, hb.2.2.2.2.2]
      refine ⟨?_, ?_, ?_, ?_, ?_, ?_⟩ <;> simp [writeSlot, writePage, hk]
    · intro n hn
      rw [hb.1, hb.2.1, hb.2.2.1, hb.2.2.2.1, hb.2.2.2.2.1, hb.2.2.2.2.2]
      refine ⟨?_, ?_, ?_, ?_, ?_, ?_⟩ <;> simp [writeSlot, writePage, hn]

/-- Witness for C10: a disabled engine is left unchanged by process. -/
theorem C10_process_frame_witness :
    offState.compute = false ∧ process offState 0 exInput = offState :=
  ⟨rfl, (C10_process_frame offState 0 exInput).1 (Or.inl rfl)⟩

/-- Claim C7 fails on the code: on the active engine warmState the first
postprocess emits 100 lines, but the second emits none, because the first
call clears the compute flag; so running finalization twice does not yield
identical output. -/
theorem C7_counterexample_second_run_differs :
    (postprocess (postprocess warmState).2).1 = [] ∧
      ((postprocess warmState).1).length = 100 ∧
      (postprocess warmState).1 ≠ (postprocess (postprocess warmState).2).1 := by
  have h0 : (postprocess (postprocess warmState).2).1
      = ([] : List (ℚ × ℚ × ℚ × ℚ)) := rfl
  have h1 : ((postprocess warmState).1).length = 100 := by
    rw [show (postprocess warmState).1
        = (List.range warmState.Nc).map (fun nc =>
            (warmState.ki_negative nc / (warmState.num_time_origins : ℚ),
             warmState.ko_negative nc / (warmState.num_time_origins : ℚ),
             warmState.ki_positive nc / (warmState.num_time_origins : ℚ),
             warmState.ko_positive nc / (warmState.num_time_origins : ℚ)))
        from rfl]
    rw [List.length_map, List.length_range]
    rfl
  refine ⟨h0, h1, ?_⟩
  intro h
  rw [h, h0] at h1
  simp at h1

/-- Claim C7 amended: on an active engine, finalization emits exactly the
four accumulator values divided by the counter for each lag in [0, Nc),
and modifies neither the accumulators nor the counter; but it clears the
compute flag, so a second finalization emits nothing and leaves the state
fixed (the cumulative emitted output of two runs equals that of one, while
the per-run outputs differ). -/
theorem C7_pure_emission (s : State) (hc : s.compute = true) :
    (postprocess s).1 = (List.range s.Nc).map (fun nc =>
        (s.ki_negative nc / (s.num_time_origins : ℚ),
         s.ko_negative nc / (s.num_time_origins : ℚ),
         s.ki_positive nc / (s.num_time_origins : ℚ),
         s.ko_positive nc / (s.num_time_origins : ℚ))) ∧
      ((postprocess s).2).ki_negative = s.ki_negative ∧
      ((postprocess s).2).ko_negative = s.ko_negative ∧
      ((postprocess s).2).ki_positive = s.ki_positive ∧
      ((postprocess s).2).ko_positive = s.ko_positive ∧
      ((postprocess s).2).num_time_origins = s.num_time_origins ∧
      ((postprocess s).2).compute = false ∧
      (postprocess ((postprocess s).2)).1 = [] ∧
      (postprocess ((postprocess s).2)).2 = (postprocess s).2 := by
  unfold postprocess
  rw [if_neg (by simp [hc])]
  exact ⟨rfl, rfl, rfl, rfl, rfl, rfl, rfl, rfl, rfl⟩

/-- Witness for C7 amended at the concrete active engine warmState. -/
theorem C7_pure_emission_witness :
    warmState.compute = true ∧ (postprocess ((postprocess warmState).2)).1 = [] :=
  ⟨rfl, (C7_pure_emission warmState rfl).2.2.2.2.2.2.2.1⟩

/-- Claim C8 fails on the spec text side: under the row layout stated by the
spec, page tensor[0][2] = 4 holds component yz ( = (1, 2)), not the row-x
component xz ( = (0, 2)) that the direction-x flux gather needs. -/
theorem C8_counterexample_spec_layout :
    specLayout (tensor 0 2) = some (1, 2) ∧
      specLayout (tensor 0 2) ≠ some ((0 : Fin 3), (2 : Fin 3)) := by
  constructor <;> decide

/-- Claim C8 amended: the flux component j for transport direction d is read
from the flat virial page tensor[d][j], and under the consistent row
layout [xx, yy, zz, xy, xz, yz, yx, zx, zy] (codeLayout) those pages hold
exactly the row-d stress components (sigma_dx, sigma_dy, sigma_dz). -/
theorem C8_flux_pages_row_layout :
    (∀ (inp : Input) (d j : Fin 3) (i : ℕ),
        sraw inp d j i = inp.virial (inp.N * tensor d j + i)) ∧
      ∀ d j : Fin 3, codeLayout (tensor d j) = some (d, j) :=
  ⟨fun _ _ _ _ => rfl, by decide⟩

lemma copyCount_subset (s : State) (g : GroupSel) (hg : s.group_method = some g)
    (inp : Input) : copyCount s inp = s.group_size := by
  unfold copyCount
  rw [hg]

lemma gatherIdx_subset (s : State) (g : GroupSel) (hg : s.group_method = some g)
    (n : ℕ) : gatherIdx s n = g.contents (g.offset + n) := by
  unfold gatherIdx
  rw [hg]

lemma writeSlot_subset_congr (s : State) (g : GroupSel)
    (hg : s.group_method = some g) (inp1 inp2 : Input) (c : ℕ)
    (hv : ∀ n, n < s.group_size → ∀ a : Fin 3,
      inp1.velocity (inp1.N * (a : ℕ) + g.contents (g.offset + n))
        = inp2.velocity (inp2.N * (a : ℕ) + g.contents (g.offset + n)))
    (hs : ∀ n, n < s.group_size → ∀ p : Fin 9,
      inp1.virial (inp1.N * (p : ℕ) + g.contents (g.offset + n))
        = inp2.virial (inp2.N * (p : ℕ) + g.contents (g.offset + n))) :
    writeSlot s inp1 c = writeSlot s inp2 c := by
  have htl : ∀ d j : Fin 3, tensor d j < 9 := by decide
  have hsr : ∀ n, n < s.group_size → ∀ (d j : Fin 3),
      sraw inp1 d j (gatherIdx s n) = sraw inp2 d j (gatherIdx s n) := by
    intro n hn d j
    rw [gatherIdx_subset s g hg]
    exact hs n hn ⟨tensor d j, htl d j⟩
  have hvr : ∀ n, n < s.group_size → ∀ a : Fin 3,
      vraw inp1 a (gatherIdx s n) = vraw inp2 a (gatherIdx s n) := by
    intro n hn a
    rw [gatherIdx_subset s g hg]
    exact hv n hn a
  unfold writeSlot
  ext : 1
  all_goals try rfl
  all_goals funext k n
  all_goals simp only [writePage, copyCount_subset s g hg]
  all_goals split_ifs with hif
  any_goals rfl
  · exact hvr n hif.2 0
  · exact hvr n hif.2 1
  · exact hvr n hif.2 2
  · exact hsr n hif.2 s.direction 0
  · exact hsr n hif.2 s.direction 1
  · exact hsr n hif.2 s.direction 2

lemma process_subset_congr (s : State) (g : GroupSel)
    (hg : s.group_method = some g) (step : ℕ) (inp1 inp2 : Input)
    (hv : ∀ n, n < s.group_size → ∀ a : Fin 3,
      inp1.velocity (inp1.N * (a : ℕ) + g.contents (g.offset + n))
        = inp2.velocity (inp2.N * (a : ℕ) + g.contents (g.offset + n)))
    (hs : ∀ n, n < s.group_size → ∀ p : Fin 9,
      inp1.virial (inp1.N * (p : ℕ) + g.contents (g.offset + n))
        = inp2.virial (inp2.N * (p : ℕ) + g.contents (g.offset + n))) :
    process s step inp1 = process s step inp2 := by
  unfold process
  split_ifs with h1 h2 h3
  · rfl
  · rfl
  · rw [writeSlot_subset_congr s g hg inp1 inp2 _ hv hs]
  · rw [writeSlot_subset_congr s g hg inp1 inp2 _ hv hs]

/-- Claim C6: with a named subset active, tracked slot n is gathered from
global particle index contents[offset + n] only; hence two runs whose
velocity and virial arrays agree on every particle of the subset's index
list (at all three velocity pages and all nine virial pages) produce
identical values in all four correlation accumulators, whatever the other
particles hold. -/
theorem C6_subset_noninterference (s : State) (g : GroupSel)
    (hg : s.group_method = some g) (inp1 inp2 : ℕ → Input) (T : ℕ)
    (hv : ∀ t n, n < s.group_size → ∀ a : Fin 3,
      (inp1 t).velocity ((inp1 t).N * (a : ℕ) + g.contents (g.offset + n))
        = (inp2 t).velocity ((inp2 t).N * (a : ℕ) + g.contents (g.offset + n)))
    (hs : ∀ t n, n < s.group_size → ∀ p : Fin 9,
      (inp1 t).virial ((inp1 t).N * (p : ℕ) + g.contents (g.offset + n))
        = (inp2 t).virial ((inp2 t).N * (p : ℕ) + g.contents (g.offset + n))) :
    (runSteps s inp1 T).ki_negative = (runSteps s inp2 T).ki_negative ∧
      (runSteps s inp1 T).ko_negative = (runSteps s inp2 T).ko_negative ∧
      (runSteps s inp1 T).ki_positive = (runSteps s inp2 T).ki_positive ∧
      (runSteps s inp1 T).ko_positive = (runSteps s inp2 T).ko_positive := by
  have hrun : ∀ U, runSteps s inp1 U = runSteps s inp2 U := by
    intro U
    induction U with
    | zero => rfl
    | succ U ih =>
      have hcfg := runSteps_config s inp1 U
      show process (runSteps s inp1 U) U (inp1 U)
          = process (runSteps s inp2 U) U (inp2 U)
      rw [← ih]
      refine process_subset_congr (runSteps s inp1 U) g ?_ U (inp1 U) (inp2 U)
        ?_ ?_
      · rw [hcfg.2.2.2.2.1, hg]
      · intro n hn a
        rw [hcfg.2.2.2.2.2] at hn
        exact hv U n hn a
      · intro n hn p
        rw [hcfg.2.2.2.2.2] at hn
        exact hs U n hn p
  rw [hrun T]
  exact ⟨rfl, rfl, rfl, rfl⟩

/-- Witness for C6: a one-particle subset of a 10-atom system, two input
streams that agree only on particle 0, one step taken. -/
theorem C6_subset_noninterference_witness :
    c6Start.group_method = some c6g ∧
      (runSteps c6Start (fun _ => c6inA) 1).ki_negative
        = (runSteps c6Start (fun _ => c6inB) 1).ki_negative :=
  ⟨rfl,
    (C6_subset_noninterference c6Start c6g rfl (fun _ => c6inA)
      (fun _ => c6inB) 1
      (by intro t n hn a; fin_cases a <;> simp [c6inA, c6inB, c6g])
      (by intro t n hn p; fin_cases p <;> simp [c6inA, c6inB, c6g])).1⟩

lemma accumulate_const (Nc c l : ℕ) (hc : c < Nc) (hl : l < Nc) (acc : ℕ → ℚ)
    (block : ℕ → ℚ) (K : ℚ) (hK : ∀ bid, bid < Nc → block bid = K) :
    accumulate Nc c acc block l = acc l + K := by
  unfold accumulate
  have hmem : (if l ≤ c then c - l else c + Nc - l) ∈ Finset.range Nc := by
    rw [Finset.mem_range]
    split_ifs <;> omega
  have hother : ∀ b ∈ Finset.range Nc,
      b ≠ (if l ≤ c then c - l else c + Nc - l) →
      (if lagOf Nc c b = l then block b else 0) = 0 := by
    intro b hb hne
    rw [Finset.mem_range] at hb
    rw [if_neg]
    intro hlag
    apply hne
    unfold lagOf at hlag
    split_ifs at hlag <;> split_ifs <;> omega
  rw [Finset.sum_eq_single_of_mem _ hmem hother]
  have hlag : lagOf Nc c (if l ≤ c then c - l else c + Nc - l) = l := by
    unfold lagOf
    split_ifs <;> omega
  rw [Finset.mem_range] at hmem
  rw [if_pos hlag, hK _ hmem]

lemma c9_vraw0 (n : ℕ) (hn : n < 2) : vraw c9Input 0 n = 1 := by
  show (if 2 * ((0 : Fin 3) : ℕ) + n < 2 then (1 : ℚ) else 0) = 1
  rw [if_pos (by simpa using hn)]

lemma c9_vraw1 (n : ℕ) : vraw c9Input 1 n = 0 := by
  show (if 2 * ((1 : Fin 3) : ℕ) + n < 2 then (1 : ℚ) else 0) = 0
  rw [if_neg (by simp <;> omega)]

lemma c9_vraw2 (n : ℕ) : vraw c9Input 2 n = 0 := by
  show (if 2 * ((2 : Fin 3) : ℕ) + n < 2 then (1 : ℚ) else 0) = 0
  rw [if_neg (by simp <;> omega)]

lemma c9_sraw0 (n : ℕ) (hn : n < 2) : sraw c9Input 0 0 n = 1 := by
  show (if 2 * tensor 0 0 + n < 2 then (1 : ℚ) else 0) = 1
  rw [if_pos (by simpa [tensor] using hn)]

lemma c9_sraw1 (n : ℕ) : sraw c9Input 0 1 n = 0 := by
  show (if 2 * tensor 0 1 + n < 2 then (1 : ℚ) else 0) = 0
  rw [if_neg (by simp [tensor] <;> omega)]

lemma c9_sraw2 (n : ℕ) : sraw c9Input 0 2 n = 0 := by
  show (if 2 * tensor 0 2 + n < 2 then (1 : ℚ) else 0) = 0
  rw [if_neg (by simp [tensor] <;> omega)]

lemma writeSlot_other (s : State) (inp : Input) (c k n : ℕ) (hk : k ≠ c) :
    (writeSlot s inp c).vx k n = s.vx k n ∧
      (writeSlot s inp c).vy k n = s.vy k n ∧
      (writeSlot s inp c).vz k n = s.vz k n ∧
      (writeSlot s inp c).sx k n = s.sx k n ∧
      (writeSlot s inp c).sy k n = s.sy k n ∧
      (writeSlot s inp c).sz k n = s.sz k n := by
  refine ⟨?_, ?_, ?_, ?_, ?_, ?_⟩ <;> exact if_neg fun h => hk h.1

lemma c9_writeSlot_pages (s : State) (hgm : s.group_method = none)
    (hdir : s.direction = 0) (c n : ℕ) (hn : n < 2) :
    (writeSlot s c9Input c).vx c n = 1 ∧
      (writeSlot s c9Input c).vy c n = 0 ∧
      (writeSlot s c9Input c).vz c n = 0 ∧
      (writeSlot s c9Input c).sx c n = 1 ∧
      (writeSlot s c9Input c).sy c n = 0 ∧
      (writeSlot s c9Input c).sz c n = 0 := by
  have hcnt : copyCount s c9Input = 2 := by
    unfold copyCount
    rw [hgm]
    rfl
  have hgi : ∀ m, gatherIdx s m = m := by
    intro m
    unfold gatherIdx
    rw [hgm]
  have hin : (c = c ∧ n < copyCount s c9Input) := ⟨rfl, by rw [hcnt]; exact hn⟩
  refine ⟨?_, ?_, ?_, ?_, ?_, ?_⟩
  · show (if c = c ∧ n < copyCount s c9Input
        then vraw c9Input 0 (gatherIdx s n) else s.vx c n) = 1
    rw [if_pos hin, hgi n]
    exact c9_vraw0 n hn
  · show (if c = c ∧ n < copyCount s c9Input
        then vraw c9Input 1 (gatherIdx s n) else s.vy c n) = 0
    rw [if_pos hin, hgi n]
    exact c9_vraw1 n
  · show (if c = c ∧ n < copyCount s c9Input
        then vraw c9Input 2 (gatherIdx s n) else s.vz c n) = 0
    rw [if_pos hin, hgi n]
    exact c9_vraw2 n
  · show (if c = c ∧ n < copyCount s c9Input
        then sraw c9Input s.direction 0 (gatherIdx s n) else s.sx c n) = 1
    rw [if_pos hin, hgi n, hdir]
    exact c9_sraw0 n hn
  · show (if c = c ∧ n < copyCount s c9Input
        then sraw c9Input s.direction 1 (gatherIdx s n) else s.sy c n) = 0
    rw [if_pos hin, hgi n, hdir]
    exact c9_sraw1 n
  · show (if c = c ∧ n < copyCount s c9Input
        then sraw c9Input s.direction 2 (gatherIdx s n) else s.sz c n) = 0
    rw [if_pos hin, hgi n, hdir]
    exact c9_sraw2 n

lemma reduceStep_acc_const (s : State) (c l : ℕ) (hNc : s.Nc = 100)
    (hgs : s.group_size = 2) (hc : c < 100) (hl : l < 100)
    (hp : ∀ k n, k < 100 → n < 2 →
      s.vx k n = 1 ∧ s.vy k n = 0 ∧ s.vz k n = 0 ∧
        s.sx k n = 1 ∧ s.sy k n = 0 ∧ s.sz k n = 0) :
    (reduceStep s c).ki_negative l = s.ki_negative l + 2 ∧
      (reduceStep s c).ko_negative l = s.ko_negative l ∧
      (reduceStep s c).ki_positive l = s.ki_positive l + 2 ∧
      (reduceStep s c).ko_positive l = s.ko_positive l ∧
      (reduceStep s c).num_time_origins = s.num_time_origins + 1 := by
  have hkiN : ∀ bid, bid < 100 →
      kiBlock s.group_size (fun n => s.sx c n) (fun n => s.sy c n)
        s.vx s.vy bid = 2 := by
    intro bid hbid
    have e0 := hp c 0 hc (by norm_num)
    have e1 := hp c 1 hc (by norm_num)
    have f0 := hp bid 0 hbid (by norm_num)
    have f1 := hp bid 1 hbid (by norm_num)
    rw [hgs]
    unfold kiBlock
    rw [Finset.sum_range_succ, Finset.sum_range_succ, Finset.sum_range_zero]
    simp only [e0.2.2.2.1, e1.2.2.2.1, e0.2.2.2.2.1, e1.2.2.2.2.1,
      f0.1, f1.1, f0.2.1, f1.2.1]
    norm_num
  have hkoN : ∀ bid, bid < 100 →
      koBlock s.group_size (fun n => s.sz c n) s.vz bid = 0 := by
    intro bid hbid
    have e0 := hp c 0 hc (by norm_num)
    have e1 := hp c 1 hc (by norm_num)
    rw [hgs]
    unfold koBlock
    rw [Finset.sum_range_succ, Finset.sum_range_succ, Finset.sum_range_zero]
    simp only [e0.2.2.2.2.2, e1.2.2.2.2.2]
    norm_num
  have hkiP : ∀ bid, bid < 100 →
      kiBlock s.group_size (fun n => s.vx c n) (fun n => s.vy c n)
        s.sx s.sy bid = 2 := by
    intro bid hbid
    have e0 := hp c 0 hc (by norm_num)
    have e1 := hp c 1 hc (by norm_num)
    have f0 := hp bid 0 hbid (by norm_num)
    have f1 := hp bid 1 hbid (by norm_num)
    rw [hgs]
    unfold kiBlock
    rw [Finset.sum_range_succ, Finset.sum_range_succ, Finset.sum_range_zero]
    simp only [e0.1, e1.1, e0.2.1, e1.2.1,
      f0.2.2.2.1, f1.2.2.2.1, f0.2.2.2.2.1, f1.2.2.2.2.1]
    norm_num
  have hkoP : ∀ bid, bid < 100 →
      koBlock s.group_size (fun n => s.vz c n) s.sz bid = 0 := by
    intro bid hbid
    have e0 := hp c 0 hc (by norm_num)
    have e1 := hp c 1 hc (by norm_num)
    rw [hgs]
    unfold koBlock
    rw [Finset.sum_range_succ, Finset.sum_range_succ, Finset.sum_range_zero]
    simp only [e0.2.2.1, e1.2.2.1]
    norm_num
  refine ⟨?_, ?_, ?_, ?_, rfl⟩
  · show accumulate s.Nc c s.ki_negative
        (kiBlock s.group_size (fun n => s.sx c n) (fun n => s.sy c n)
          s.vx s.vy) l
      = s.ki_negative l + 2
    rw [hNc]
    exact accumulate_const 100 c l hc hl _ _ 2 hkiN
  · show accumulate s.Nc c s.ko_negative
        (koBlock s.group_size (fun n => s.sz c n) s.vz) l
      = s.ko_negative l
    rw [hNc, accumulate_const 100 c l hc hl _ _ 0 hkoN, add_zero]
  · show accumulate s.Nc c s.ki_positive
        (kiBlock s.group_size (fun n => s.vx c n) (fun n => s.vy c n)
          s.sx s.sy) l
      = s.ki_positive l + 2
    rw [hNc]
    exact accumulate_const 100 c l hc hl _ _ 2 hkiP
  · show accumulate s.Nc c s.ko_positive
        (koBlock s.group_size (fun n => s.vz c n) s.sz) l
      = s.ko_positive l
    rw [hNc, accumulate_const 100 c l hc hl _ _ 0 hkoP, add_zero]

lemma c9_step_shape (T : ℕ) :
    runSteps c9Start (fun _ => c9Input) (T + 1)
      = (if 99 ≤ T then
          reduceStep
            (writeSlot (runSteps c9Start (fun _ => c9Input) T) c9Input (T % 100))
            (T % 100)
        else writeSlot (runSteps c9Start (fun _ => c9Input) T) c9Input (T % 100)) := by
  have hcfg := runSteps_config c9Start (fun _ => c9Input) T
  show process (runSteps c9Start (fun _ => c9Input) T) T c9Input = _
  unfold process
  rw [hcfg.1, hcfg.2.1, hcfg.2.2.1]
  rw [if_neg (by decide : ¬ c9Start.compute = false)]
  rw [if_neg (by simp [show c9Start.sample_interval = 1 from rfl, Nat.mod_one])]
  rw [show c9Start.sample_interval = 1 from rfl,
    show c9Start.Nc = 100 from rfl, Nat.div_one]

lemma c9_invariant (T : ℕ) :
    (∀ k n, k < 100 → k < T → n < 2 →
        (runSteps c9Start (fun _ => c9Input) T).vx k n = 1 ∧
          (runSteps c9Start (fun _ => c9Input) T).vy k n = 0 ∧
          (runSteps c9Start (fun _ => c9Input) T).vz k n = 0 ∧
          (runSteps c9Start (fun _ => c9Input) T).sx k n = 1 ∧
          (runSteps c9Start (fun _ => c9Input) T).sy k n = 0 ∧
          (runSteps c9Start (fun _ => c9Input) T).sz k n = 0) ∧
      ∀ l, l < 100 →
        (runSteps c9Start (fun _ => c9Input) T).ki_negative l
            = 2 * ((runSteps c9Start (fun _ => c9Input) T).num_time_origins : ℚ) ∧
          (runSteps c9Start (fun _ => c9Input) T).ki_positive l
            = 2 * ((runSteps c9Start (fun _ => c9Input) T).num_time_origins : ℚ) ∧
          (runSteps c9Start (fun _ => c9Input) T).ko_negative l = 0 ∧
          (runSteps c9Start (fun _ => c9Input) T).ko_positive l = 0 := by
  induction T with
  | zero =>
    constructor
    · intro k n _ hk _
      exact absurd hk (Nat.not_lt_zero k)
    · intro l _
      refine ⟨?_, ?_, rfl, rfl⟩
      · show (0 : ℚ) = 2 * ((0 : ℕ) : ℚ)
        norm_num
      · show (0 : ℚ) = 2 * ((0 : ℕ) : ℚ)
        norm_num
  | succ T ih =>
    obtain ⟨ihp, iha⟩ := ih
    have hcfg := runSteps_config c9Start (fun _ => c9Input) T
    have hgm : (runSteps c9Start (fun _ => c9Input) T).group_method = none :=
      hcfg.2.2.2.2.1
    have hdir : (runSteps c9Start (fun _ => c9Input) T).direction = 0 :=
      hcfg.2.2.2.1
    have hgs : (runSteps c9Start (fun _ => c9Input) T).group_size = 2 :=
      hcfg.2.2.2.2.2
    have hNc : (runSteps c9Start (fun _ => c9Input) T).Nc = 100 := hcfg.2.2.1
    rw [c9_step_shape T]
    by_cases hred : 99 ≤ T
    · rw [if_pos hred]
      have hpages : ∀ k n, k < 100 → n < 2 →
          (writeSlot (runSteps c9Start (fun _ => c9Input) T) c9Input
              (T % 100)).vx k n = 1 ∧
            (writeSlot (runSteps c9Start (fun _ => c9Input) T) c9Input
              (T % 100)).vy k n = 0 ∧
            (writeSlot (runSteps c9Start (fun _ => c9Input) T) c9Input
              (T % 100)).vz k n = 0 ∧
            (writeSlot (runSteps c9Start (fun _ => c9Input) T) c9Input
              (T % 100)).sx k n = 1 ∧
            (writeSlot (runSteps c9Start (fun _ => c9Input) T) c9Input
              (T % 100)).sy k n = 0 ∧
            (writeSlot (runSteps c9Start (fun _ => c9Input) T) c9Input
              (T % 100)).sz k n = 0 := by
        intro k n hk hn
        by_cases hkc : k = T % 100
        · rw [hkc]
          exact c9_writeSlot_pages _ hgm hdir _ n hn
        · have hkT : k < T := by omega
          have ho := writeSlot_other (runSteps c9Start (fun _ => c9Input) T)
            c9Input (T % 100) k n hkc
          have hi := ihp k n hk hkT hn
          exact ⟨ho.1.trans hi.1, ho.2.1.trans hi.2.1,
            ho.2.2.1.trans hi.2.2.1, ho.2.2.2.1.trans hi.2.2.2.1,
            ho.2.2.2.2.1.trans hi.2.2.2.2.1, ho.2.2.2.2.2.trans hi.2.2.2.2.2⟩
      constructor
      · intro k n hk _ hn
        exact hpages k n hk hn
      · intro l hl
        have hacc := reduceStep_acc_const
          (writeSlot (runSteps c9Start (fun _ => c9Input) T) c9Input (T % 100))
          (T % 100) l hNc hgs (Nat.mod_lt T (by norm_num)) hl hpages
        have hiaccs := iha l hl
        refine ⟨?_, ?_, ?_, ?_⟩
        · rw [hacc.1, hacc.2.2.2.2]
          show (runSteps c9Start (fun _ => c9Input) T).ki_negative l + 2
            = 2 * (((runSteps c9Start (fun _ => c9Input) T).num_time_origins
                + 1 : ℕ) : ℚ)
          rw [hiaccs.1]
          push_cast
          ring
        · rw [hacc.2.2.1, hacc.2.2.2.2]
          show (runSteps c9Start (fun _ => c9Input) T).ki_positive l + 2
            = 2 * (((runSteps c9Start (fun _ => c9Input) T).num_time_origins
                + 1 : ℕ) : ℚ)
          rw [hiaccs.2.1]
          push_cast
          ring
        · rw [hacc.2.1]
          exact hiaccs.2.2.1
        · rw [hacc.2.2.2.1]
          exact hiaccs.2.2.2
    · rw [if_neg hred]
      constructor
      · intro k n hk hkT1 hn
        by_cases hkc : k = T % 100
        · rw [hkc]
          exact c9_writeSlot_pages _ hgm hdir _ n hn
        · have hkT : k < T := by omega
          have ho := writeSlot_other (runSteps c9Start (fun _ => c9Input) T)
            c9Input (T % 100) k n hkc
          have hi := ihp k n hk hkT hn
          exact ⟨ho.1.trans hi.1, ho.2.1.trans hi.2.1,
            ho.2.2.1.trans hi.2.2.1, ho.2.2.2.1.trans hi.2.2.2.1,
            ho.2.2.2.2.1.trans hi.2.2.2.2.1, ho.2.2.2.2.2.trans hi.2.2.2.2.2⟩
      · intro l hl
        exact iha l hl

/-- Claim C9: in the end-to-end scenario (group_size = 2, Nc = 100,
direction x, constant velocity (1,0,0) and constant flux (1,0,0) at every
sampling step), after every step both in-plane accumulators equal
group_size times the time-origin counter at every lag, both out-of-plane
accumulators are exactly zero at every lag, and once a reducing step has
happened (T >= 100 with interval 1) the counter, hence the common in-plane
value, is positive. -/
theorem C9_constant_scenario (T l : ℕ) (hl : l < 100) :
    (runSteps c9Start (fun _ => c9Input) T).ki_negative l
        = (c9Start.group_size : ℚ)
          * ((runSteps c9Start (fun _ => c9Input) T).num_time_origins : ℚ) ∧
      (runSteps c9Start (fun _ => c9Input) T).ki_positive l
        = (c9Start.group_size : ℚ)
          * ((runSteps c9Start (fun _ => c9Input) T).num_time_origins : ℚ) ∧
      (runSteps c9Start (fun _ => c9Input) T).ko_negative l = 0 ∧
      (runSteps c9Start (fun _ => c9Input) T).ko_positive l = 0 ∧
      (100 ≤ T → 0 < (runSteps c9Start (fun _ => c9Input) T).num_time_origins) := by
  have h := (c9_invariant T).2 l hl
  have hgs2 : (c9Start.group_size : ℚ) = 2 := by
    rw [show c9Start.group_size = 2 from rfl]
    norm_num
  refine ⟨?_, ?_, h.2.2.1, h.2.2.2, ?_⟩
  · rw [hgs2]
    exact h.1
  · rw [hgs2]
    exact h.2.1
  · intro hT
    have hcount := runSteps_counter c9Start (fun _ => c9Input) rfl T
    rw [show c9Start.sample_interval = 1 from rfl,
      show c9Start.Nc = 100 from rfl,
      show c9Start.num_time_origins = 0 from rfl, Nat.div_one] at hcount
    omega

/-- Witness for C9 at T = 120 steps and lag 5. -/
theorem C9_constant_scenario_witness :
    (5 : ℕ) < 100 ∧
      (runSteps c9Start (fun _ => c9Input) 120).ko_negative 5 = 0 :=
  ⟨by decide, (C9_constant_scenario 120 5 (by decide)).2.2.1⟩

end GPUMD
